import Mathlib

/-!
Verification of the MemoryPilot memory pipeline.

This file gives a shallow embedding of the core of the MemoryPilot agent
(a background service that batches developer-activity events, extracts
"memories" from them, and serves them through a ranked recall operation)
and proves the behavioural properties claimed for it.

Source correspondence:
* `Memory`, `Event` model the records of `pkg/models` as used by the store
  (`internal/store/store.go`, table `memories` / `events`).  Timestamps are
  modelled as `Int` (seconds), real-valued scores as `ℚ`.
* `recordAccess`, `decayStep`/`DecayImportance`, `Recall` model the SQL of
  `Store.recordAccess`, `Store.DecayImportance` and `Store.Recall`.
* `filterByConfidence`, `extractModel` model `OllamaExtractor.Extract`
  (`internal/extractor/extractor.go`): the HTTP/JSON round trip is an
  external boundary, passed in as an `Except` value; what the code does with
  it (the confidence filter) is embedded.
* `processBatch`, `onEvent`/`deliverEvents`, `submitEvent` model
  `Agent.processBatch`, the event branch of `Agent.processEvents`, and the
  non-blocking channel send used by the watchers
  (`internal/agent/agent.go`, `internal/watcher/*.go`).
* `manualMemory` models the memory literal built by the `remember` CLI
  command (`cmd/remember.go`); `handleRemember` models the MCP handler of
  the same name (`internal/mcp/server.go`).
-/

namespace MemoryPilot

/-- A row of the `memories` table / `models.Memory`.  The embedding BLOB is
not modelled (always NULL in `CreateMemory` and irrelevant to the claims). -/
structure Memory where
  id : String
  mtype : String
  content : String
  summary : String
  scope : String
  projectID : Option String
  teamID : Option String
  sourceType : String
  sourceReference : String
  sourceTimestamp : Int
  confidence : ℚ
  importance : ℚ
  topics : List String
  relatedMemories : List String
  createdAt : Int
  lastAccessedAt : Int
  accessCount : Nat
  expiresAt : Option Int
deriving DecidableEq, Repr

/-- A row of the `events` table / `models.Event`.  The kind-specific payload
map is not inspected by any of the code under verification, so it is left
out of the embedding. -/
structure Event where
  id : String
  etype : String
  timestamp : Int
  projectID : Option String
deriving DecidableEq, Repr

/-- An event together with its `processed_at` marker, as stored in the
`events` table. -/
structure EventRow where
  event : Event
  processedAt : Option Int
deriving DecidableEq, Repr

/-! ### Store: access boost and decay -/

/-- `Store.recordAccess`: `UPDATE memories SET last_accessed_at = now,
access_count = access_count + 1, importance = MIN(1.0, importance * 1.05)`. -/
def recordAccess (now : Int) (m : Memory) : Memory :=
  { m with
    lastAccessedAt := now
    accessCount := m.accessCount + 1
    importance := min 1 (m.importance * (105 / 100)) }

/-- One day in seconds, the minus-one-day datetime cutoff of
`Store.DecayImportance`. -/
def oneDay : Int := 86400

/-- The effect of `Store.DecayImportance` on a single row: `SET importance =
importance * 0.99 WHERE importance > 0.1 AND last_accessed_at < now - 1 day`. -/
def decayStep (now : Int) (m : Memory) : Memory :=
  if (1 / 10 : ℚ) < m.importance ∧ m.lastAccessedAt < now - oneDay then
    { m with importance := m.importance * (99 / 100) }
  else m

/-- `Store.DecayImportance`: one run of the decay task over the whole table. -/
def DecayImportance (now : Int) (db : List Memory) : List Memory :=
  db.map (decayStep now)

/-! ### Store: recall -/

/-- `models.RecallRequest` as used by `Store.Recall`. -/
structure RecallRequest where
  query : String
  scope : List String
  types : List String
  projectID : Option String
  limit : Int
deriving Repr

/-- Bool-valued check that `needle` occurs as a contiguous subsequence of
`hay`; the character-level semantics of a SQL `LIKE` match with percent
wildcards on both sides. -/
def containsSeq (needle : List Char) : List Char → Bool
  | [] => needle.isEmpty
  | c :: t => needle.isPrefixOf (c :: t) || containsSeq needle t

/-- SQLite percent-wrapped `LIKE` match: case-insensitive (for ASCII)
substring containment. -/
def likeMatch (pat s : String) : Bool :=
  containsSeq pat.toLower.toList s.toLower.toList

/-- The serialized topic list stored in the `topics` column:
`json.Marshal` of a `[]string` (modulo JSON string escaping, which none of
the claims exercise). -/
def serializeTopics (topics : List String) : String :=
  "[" ++ String.intercalate "," (topics.map (fun t => "\x22" ++ t ++ "\x22")) ++ "]"

/-- The WHERE clause built by `Store.Recall`: scope and type `IN` filters
when the lists are non-empty, `(project_id = ? OR project_id IS NULL)` when
a project filter is given, and the three-column `LIKE` search when the query
string is non-empty. -/
def passesFilters (req : RecallRequest) (m : Memory) : Bool :=
  (req.scope.isEmpty || req.scope.contains m.scope) &&
  (req.types.isEmpty || req.types.contains m.mtype) &&
  (match req.projectID with
   | none => true
   | some p => m.projectID == some p || m.projectID == none) &&
  (req.query == "" ||
    (likeMatch req.query m.content || likeMatch req.query m.summary ||
      likeMatch req.query (serializeTopics m.topics)))

/-- The ordering of `ORDER BY importance DESC, last_accessed_at DESC`:
`a` may come before `b` iff `a` has larger importance, or equal importance
and no smaller last-accessed time. -/
def recallOrder (a b : Memory) : Prop :=
  b.importance < a.importance ∨
    (a.importance = b.importance ∧ b.lastAccessedAt ≤ a.lastAccessedAt)

instance : DecidableRel recallOrder := fun a b => by
  unfold recallOrder; infer_instance

instance : IsTotal Memory recallOrder :=
  ⟨fun a b => by
    unfold recallOrder
    rcases lt_trichotomy a.importance b.importance with h | h | h
    · exact Or.inr (Or.inl h)
    · rcases le_total b.lastAccessedAt a.lastAccessedAt with h2 | h2
      · exact Or.inl (Or.inr ⟨h, h2⟩)
      · exact Or.inr (Or.inr ⟨h.symm, h2⟩)
    · exact Or.inl (Or.inl h)⟩

instance : IsTrans Memory recallOrder :=
  ⟨fun a b c hab hbc => by
    unfold recallOrder at *
    rcases hab with h1 | ⟨h1, h1a⟩
    · rcases hbc with h2 | ⟨h2, h2a⟩
      · exact Or.inl (h2.trans h1)
      · exact Or.inl (h2 ▸ h1)
    · rcases hbc with h2 | ⟨h2, h2a⟩
      · exact Or.inl (h1 ▸ h2)
      · exact Or.inr ⟨h1.trans h2, h2a.trans h1a⟩⟩

/-- The effective LIMIT of `Store.Recall`: `if limit <= 0 { limit = 5 }`. -/
def effLimit (l : Int) : Nat :=
  if l ≤ 0 then 5 else l.toNat

/-- `Store.Recall` as a query: filter by the WHERE clause, order by
importance descending then last-accessed descending, cut at the limit. -/
def Recall (req : RecallRequest) (db : List Memory) : List Memory :=
  ((db.filter (passesFilters req)).insertionSort recallOrder).take (effLimit req.limit)

/-- `Store.Recall` including its side effect: every returned memory gets
`recordAccess` applied to its row in the store. -/
def RecallRun (now : Int) (req : RecallRequest) (db : List Memory) :
    List Memory × List Memory :=
  let res := Recall req db
  (res, db.map (fun m => if res.any (fun r => r.id == m.id) then recordAccess now m else m))

/-! ### Extraction gateway and batch processing -/

/-- `extractor.ExtractedMemory`: the transient output shape of the
extraction gateway. -/
structure ExtractedMemory where
  etype : String
  content : String
  summary : String
  confidence : ℚ
  topics : List String
deriving DecidableEq, Repr

/-- The confidence filter at the end of `OllamaExtractor.Extract`:
`if m.Confidence >= 0.6 { filtered = append(filtered, m) }`. -/
def filterByConfidence (l : List ExtractedMemory) : List ExtractedMemory :=
  l.filter (fun m => (6 / 10 : ℚ) ≤ m.confidence)

/-- `OllamaExtractor.Extract`: returns `nil, nil` on an empty batch;
otherwise the HTTP/JSON round trip (an external boundary, supplied here as
`resp`) either fails or yields a candidate list, which is then filtered by
confidence. -/
def extractModel (events : List Event)
    (resp : Except String (List ExtractedMemory)) :
    Except String (List ExtractedMemory) :=
  if events.isEmpty then .ok [] else resp.map filterByConfidence

/-- The memory literal built in `Agent.processBatch` for one accepted
candidate: scope personal, source git/"batch", confidence copied from the
candidate, importance 1.0, access count 0. -/
def memoryFromExtraction (now : Int) (id : String) (ext : ExtractedMemory) : Memory :=
  { id := id
    mtype := ext.etype
    content := ext.content
    summary := ext.summary
    scope := "personal"
    projectID := none
    teamID := none
    sourceType := "git"
    sourceReference := "batch"
    sourceTimestamp := now
    confidence := ext.confidence
    importance := 1
    topics := ext.topics
    relatedMemories := []
    createdAt := now
    lastAccessedAt := now
    accessCount := 0
    expiresAt := none }

/-- The store state touched by `Agent.processBatch`: the events table and
the memories table. -/
structure AgentState where
  events : List EventRow
  memories : List Memory
deriving Repr

/-- `Store.MarkEventProcessed`: `UPDATE events SET processed_at = now WHERE
id = ?`. -/
def markEventProcessed (now : Int) (eid : String) (rows : List EventRow) :
    List EventRow :=
  rows.map (fun r => if r.event.id = eid then { r with processedAt := some now } else r)

/-- The mark-processed loop at the end of `Agent.processBatch` (run in both
the failure and the success branch). -/
def markAllProcessed (now : Int) (batch : List Event) (rows : List EventRow) :
    List EventRow :=
  batch.foldl (fun rs e => markEventProcessed now e.id rs) rows

/-- The cumulative effect of the mark-processed loop on a single row. -/
def rowMark (now : Int) (batch : List Event) (r : EventRow) : EventRow :=
  batch.foldl
    (fun r e => if r.event.id = e.id then { r with processedAt := some now } else r) r

/-- `Agent.processBatch`: run extraction over the batch; on failure just
mark every event of the batch processed; on success additionally create one
memory per accepted candidate (ids drawn from the `ids` supply, standing in
for `ulid.Make`).  In both branches no error is returned to the caller. -/
def processBatch (now : Int) (ids : Nat → String) (batch : List Event)
    (resp : Except String (List ExtractedMemory)) (st : AgentState) : AgentState :=
  match extractModel batch resp with
  | .error _ => { st with events := markAllProcessed now batch st.events }
  | .ok extracted =>
      { st with
        memories := st.memories ++
          (extracted.enum.map (fun p => memoryFromExtraction now (ids p.1) p.2))
        events := markAllProcessed now batch st.events }

/-! ### Batcher and event queue -/

/-- Observable state of the batcher loop in `Agent.processEvents`: the
accumulated batch, the list of completed flushes (in order), and how many
times the wait timer has been reset. -/
structure BatcherState where
  batch : List Event
  flushes : List (List Event)
  timerResets : Nat
deriving DecidableEq, Repr

/-- The `event := <-a.eventQueue` branch of `Agent.processEvents`: append
the event to the batch; if the batch has reached `BatchSize`, flush it and
reset the wait timer. -/
def onEvent (batchSize : Nat) (st : BatcherState) (e : Event) : BatcherState :=
  let batch := st.batch ++ [e]
  if batchSize ≤ batch.length then
    { batch := [], flushes := st.flushes ++ [batch], timerResets := st.timerResets + 1 }
  else
    { st with batch := batch }

/-- Delivery of a sequence of events to the batcher with no intervening
timer tick. -/
def deliverEvents (batchSize : Nat) (st : BatcherState) (events : List Event) :
    BatcherState :=
  events.foldl (onEvent batchSize) st

/-- Capacity of the agent event queue: `make(chan models.Event, 10000)`. -/
def queueCapacity : Nat := 10000

/-- The non-blocking send used by every watcher (`select { case sink <- e:
default: /* log and drop */ }`) on a buffered channel of capacity
`queueCapacity`, viewed as a list of pending events. -/
def submitEvent (q : List Event) (e : Event) : List Event :=
  if q.length < queueCapacity then q ++ [e] else q

/-! ### Remember surfaces -/

/-- `truncate` from `cmd/remember.go` (modelled on characters rather than
bytes). -/
def truncate (s : String) (maxLen : Nat) : String :=
  if s.length ≤ maxLen then s
  else String.mk (s.toList.take (maxLen - 3)) ++ "..."

/-- The memory literal built by the `remember` CLI command
(`cmd/remember.go`): confidence 1.0, importance 1.0, scope personal, source
manual/"cli". -/
def manualMemory (now : Int) (id content mtype : String) (topics : List String) :
    Memory :=
  { id := id
    mtype := mtype
    content := content
    summary := truncate content 100
    scope := "personal"
    projectID := none
    teamID := none
    sourceType := "manual"
    sourceReference := "cli"
    sourceTimestamp := now
    confidence := 1
    importance := 1
    topics := topics
    relatedMemories := []
    createdAt := now
    lastAccessedAt := now
    accessCount := 0
    expiresAt := none }

/-- `Server.handleRemember` from `internal/mcp/server.go`: defaults the type
to "fact" and answers with a text echo.  The store (first component) is
returned exactly as received — the handler body is
`// TODO: Create memory` and performs no store write. -/
def handleRemember (memories : List Memory) (content mtype : String) :
    List Memory × String :=
  let t := if mtype = "" then "fact" else mtype
  (memories, "Remembered: " ++ content ++ " (type: " ++ t ++ ")")

/-! ### Lifetime of a memory -/

/-- The two store operations that mutate an existing memory: the recall
access boost and the decay task. -/
inductive StoreOp where
  | boost (now : Int)
  | decay (now : Int)

/-- Apply one store operation to one memory. -/
def applyOp (m : Memory) : StoreOp → Memory
  | .boost now => recordAccess now m
  | .decay now => decayStep now m

/-- Apply a whole history of store operations to one memory. -/
def applyOps (m : Memory) (ops : List StoreOp) : Memory :=
  ops.foldl applyOp m

/-! ### Helper lemmas -/

lemma recordAccess_importance_le_one (now : Int) (m : Memory) :
    (recordAccess now m).importance ≤ 1 :=
  min_le_left _ _

lemma recordAccess_importance_gt (now : Int) (m : Memory)
    (h0 : 0 < m.importance) (h1 : m.importance < 1) :
    m.importance < (recordAccess now m).importance := by
  show m.importance < min 1 (m.importance * (105 / 100))
  exact lt_min h1 (by nlinarith)

lemma decayStep_cases (now : Int) (m : Memory) :
    decayStep now m = m ∨
      ((1 / 10 : ℚ) < m.importance ∧
        decayStep now m = { m with importance := m.importance * (99 / 100) }) := by
  unfold decayStep
  split
  next hc => exact Or.inr ⟨hc.1, rfl⟩
  next => exact Or.inl rfl

lemma applyOp_importance_floor (op : StoreOp) (m : Memory)
    (h : (99 / 1000 : ℚ) < m.importance) (h1 : m.importance ≤ 1) :
    (99 / 1000 : ℚ) < (applyOp m op).importance ∧ (applyOp m op).importance ≤ 1 := by
  cases op with
  | boost now =>
    refine ⟨?_, recordAccess_importance_le_one now m⟩
    show (99 / 1000 : ℚ) < min 1 (m.importance * (105 / 100))
    exact lt_min (by norm_num) (by nlinarith)
  | decay now =>
    show (99 / 1000 : ℚ) < (decayStep now m).importance ∧ (decayStep now m).importance ≤ 1
    rcases decayStep_cases now m with hd | ⟨hgt, hd⟩
    · rw [hd]; exact ⟨h, h1⟩
    · have h2 : (decayStep now m).importance = m.importance * (99 / 100) := by rw [hd]
      rw [h2]
      exact ⟨by nlinarith, by nlinarith⟩

lemma applyOps_importance_floor (ops : List StoreOp) (m : Memory)
    (h : (99 / 1000 : ℚ) < m.importance) (h1 : m.importance ≤ 1) :
    (99 / 1000 : ℚ) < (applyOps m ops).importance ∧ (applyOps m ops).importance ≤ 1 := by
  induction ops generalizing m with
  | nil => exact ⟨h, h1⟩
  | cons op ops ih =>
    have step := applyOp_importance_floor op m h h1
    exact ih (applyOp m op) step.1 step.2

lemma applyOp_importance_unit (op : StoreOp) (m : Memory)
    (h0 : 0 ≤ m.importance) (h1 : m.importance ≤ 1) :
    0 ≤ (applyOp m op).importance ∧ (applyOp m op).importance ≤ 1 := by
  cases op with
  | boost now =>
    refine ⟨?_, recordAccess_importance_le_one now m⟩
    show (0 : ℚ) ≤ min 1 (m.importance * (105 / 100))
    exact le_min (by norm_num) (by nlinarith)
  | decay now =>
    show 0 ≤ (decayStep now m).importance ∧ (decayStep now m).importance ≤ 1
    rcases decayStep_cases now m with hd | ⟨hgt, hd⟩
    · rw [hd]; exact ⟨h0, h1⟩
    · have h2 : (decayStep now m).importance = m.importance * (99 / 100) := by rw [hd]
      rw [h2]
      exact ⟨by nlinarith, by nlinarith⟩

lemma applyOps_importance_unit (ops : List StoreOp) (m : Memory)
    (h0 : 0 ≤ m.importance) (h1 : m.importance ≤ 1) :
    0 ≤ (applyOps m ops).importance ∧ (applyOps m ops).importance ≤ 1 := by
  induction ops generalizing m with
  | nil => exact ⟨h0, h1⟩
  | cons op ops ih =>
    have step := applyOp_importance_unit op m h0 h1
    exact ih (applyOp m op) step.1 step.2

lemma markAllProcessed_cons (now : Int) (e : Event) (es : List Event)
    (rows : List EventRow) :
    markAllProcessed now (e :: es) rows =
      markAllProcessed now es (markEventProcessed now e.id rows) :=
  rfl

lemma rowMark_cons (now : Int) (e : Event) (es : List Event) (r : EventRow) :
    rowMark now (e :: es) r =
      rowMark now es (if r.event.id = e.id then { r with processedAt := some now } else r) :=
  rfl

lemma map_rowMark_nil (now : Int) (rows : List EventRow) :
    rows.map (rowMark now []) = rows := by
  induction rows with
  | nil => rfl
  | cons r rs ih => simp [rowMark, ih]

lemma markAllProcessed_eq_map (now : Int) (batch : List Event) (rows : List EventRow) :
    markAllProcessed now batch rows = rows.map (rowMark now batch) := by
  induction batch generalizing rows with
  | nil => exact (map_rowMark_nil now rows).symm
  | cons e es ih =>
    rw [markAllProcessed_cons, ih, markEventProcessed, List.map_map]
    rfl

lemma rowMark_eq (now : Int) (batch : List Event) (r : EventRow) :
    rowMark now batch r =
      if batch.any (fun e => r.event.id == e.id) then { r with processedAt := some now }
      else r := by
  induction batch generalizing r with
  | nil => simp [rowMark]
  | cons e es ih =>
    rw [rowMark_cons]
    by_cases hid : r.event.id = e.id
    · rw [if_pos hid, ih]
      simp only [List.any_cons, hid, beq_self_eq_true, Bool.true_or, if_pos]
      split <;> rfl
    · rw [if_neg hid, ih]
      have : (r.event.id == e.id) = false := beq_eq_false_iff_ne.mpr hid
      simp [List.any_cons, this]

lemma rowMark_processed_of_mem (now : Int) (batch : List Event) (r : EventRow)
    (h : ∃ e ∈ batch, e.id = r.event.id) :
    (rowMark now batch r).processedAt = some now := by
  rw [rowMark_eq]
  obtain ⟨e, he, hid⟩ := h
  have : batch.any (fun e => r.event.id == e.id) = true :=
    List.any_eq_true.mpr ⟨e, he, beq_iff_eq.mpr hid.symm⟩
  rw [if_pos this]

lemma rowMark_id_of_not_mem (now : Int) (batch : List Event) (r : EventRow)
    (h : ∀ e ∈ batch, ¬e.id = r.event.id) :
    rowMark now batch r = r := by
  rw [rowMark_eq]
  have : batch.any (fun e => r.event.id == e.id) = false := by
    rw [List.any_eq_false]
    intro e he
    exact beq_eq_false_iff_ne.mpr (fun hx => h e he hx.symm) ▸ by
      simp [beq_eq_false_iff_ne.mpr (fun hx : r.event.id = e.id => h e he hx.symm)]
  rw [this]
  rfl

lemma deliverEvents_under (batchSize : Nat) (st : BatcherState) (events : List Event)
    (h : st.batch.length + events.length < batchSize) :
    deliverEvents batchSize st events = { st with batch := st.batch ++ events } := by
  induction events generalizing st with
  | nil => simp [deliverEvents]
  | cons e es ih =>
    simp only [List.length_cons] at h
    have hlt : st.batch.length + 1 + es.length < batchSize := by omega
    have hstep : onEvent batchSize st e = { st with batch := st.batch ++ [e] } := by
      unfold onEvent
      rw [if_neg]
      simp only [List.length_append, List.length_cons, List.length_nil]
      omega
    have hd : deliverEvents batchSize st (e :: es) =
        deliverEvents batchSize (onEvent batchSize st e) es := rfl
    rw [hd, hstep, ih _ (by simpa using hlt)]
    simp [List.append_assoc]

/-! ### Concrete fixtures used by witnesses and counterexamples -/

/-- A store memory with importance one half. -/
def wMem : Memory :=
  { id := "A", mtype := "decision", content := "use pkce", summary := "use pkce",
    scope := "personal", projectID := none, teamID := none,
    sourceType := "manual", sourceReference := "cli", sourceTimestamp := 0,
    confidence := 1, importance := 1 / 2, topics := [], relatedMemories := [],
    createdAt := 0, lastAccessedAt := 0, accessCount := 0, expiresAt := none }

/-- A freshly created memory (importance 1, as every creation path sets it). -/
def wMemFull : Memory := { wMem with id := "B", importance := 1 }

/-- A concrete event. -/
def wEvent : Event := { id := "e1", etype := "git_commit", timestamp := 0, projectID := none }

/-- A second concrete event. -/
def wEvent2 : Event := { id := "e2", etype := "file_change", timestamp := 1, projectID := none }

/-- An unprocessed row for `wEvent`. -/
def wRow : EventRow := { event := wEvent, processedAt := none }

/-- An extraction candidate above the acceptance threshold. -/
def wCand : ExtractedMemory :=
  { etype := "fact", content := "uses go", summary := "go", confidence := 8 / 10, topics := [] }

/-- A recall request with no filters and the default limit. -/
def wReq : RecallRequest :=
  { query := "", scope := [], types := [], projectID := none, limit := 5 }

/-- A gateway candidate whose confidence exceeds 1.  The extractor only
filters from below (`Confidence >= 0.6`), so this candidate is accepted
verbatim. -/
def overCand : ExtractedMemory :=
  { etype := "fact", content := "c", summary := "s", confidence := 3 / 2, topics := [] }

/-- A memory just above the decay threshold: one decay step takes it below
0.1. -/
def lowMem : Memory := { wMem with importance := 101 / 1000, lastAccessedAt := 0 }

/-! ### Claims -/

/-- C1, counterexample: the claim that confidence always lies in [0,1] fails
on the extraction path.  A candidate with confidence 3/2 passes the
acceptance filter (which only bounds confidence from below by 0.6) and
`processBatch` creates a memory whose stored confidence is 3/2 > 1. -/
theorem c1_confidence_counterexample :
    filterByConfidence [overCand] = [overCand] ∧
    1 < (memoryFromExtraction 0 "m1" overCand).confidence ∧
    (processBatch 0 (fun _ => "m1") [wEvent] (.ok [overCand])
        ⟨[wRow], []⟩).memories.map (fun m => m.confidence) = [3 / 2] := by
  refine ⟨?_, ?_, ?_⟩
  · norm_num [filterByConfidence, overCand]
  · norm_num [memoryFromExtraction, overCand]
  · norm_num [processBatch, extractModel, Except.map, filterByConfidence, overCand,
      wEvent, wRow, memoryFromExtraction, List.enum, List.enumFrom]

/-- C1, amended: importance stays in [0,1] for every memory (created at 1.0,
preserved by any sequence of boosts and decay steps); confidence is 1.0 for
manual memories; extraction-created memories copy the candidate confidence,
which is at least 0.6, and lies in [0,1] exactly when the gateway candidate
confidence is at most 1 — the code clamps importance but never clamps
confidence from above. -/
theorem c1_importance_unit_confidence_policy :
    (∀ (m : Memory) (ops : List StoreOp), m.importance = 1 →
      0 ≤ (applyOps m ops).importance ∧ (applyOps m ops).importance ≤ 1) ∧
    (∀ (now : Int) (id content mtype : String) (topics : List String),
      (manualMemory now id content mtype topics).confidence = 1 ∧
      (manualMemory now id content mtype topics).importance = 1) ∧
    (∀ (now : Int) (id : String) (ext : ExtractedMemory) (l : List ExtractedMemory),
      ext ∈ filterByConfidence l →
      (memoryFromExtraction now id ext).importance = 1 ∧
      (6 / 10 : ℚ) ≤ (memoryFromExtraction now id ext).confidence ∧
      (ext.confidence ≤ 1 →
        0 ≤ (memoryFromExtraction now id ext).confidence ∧
        (memoryFromExtraction now id ext).confidence ≤ 1)) := by
  refine ⟨?_, ?_, ?_⟩
  · intro m ops h
    exact applyOps_importance_unit ops m (by rw [h]; norm_num) (le_of_eq h)
  · intro now id content mtype topics
    exact ⟨rfl, rfl⟩
  · intro now id ext l hmem
    have hc : (6 / 10 : ℚ) ≤ ext.confidence := by
      have := (List.mem_filter.mp hmem).2
      simpa using this
    refine ⟨rfl, hc, ?_⟩
    intro hle
    constructor
    · show (0 : ℚ) ≤ ext.confidence
      linarith
    · show ext.confidence ≤ 1
      exact hle

/-- C1, witness for the amended theorem: a memory created at importance 1
keeps its importance in [0,1] through a decay run. -/
theorem c1_amended_witness :
    0 ≤ (applyOps wMemFull [StoreOp.decay (2 * oneDay)]).importance ∧
    (applyOps wMemFull [StoreOp.decay (2 * oneDay)]).importance ≤ 1 :=
  c1_importance_unit_confidence_policy.1 wMemFull [StoreOp.decay (2 * oneDay)]
    (by norm_num [wMemFull, wMem])

/-- C2: recall applies exactly the `recordAccess` side effect to every
returned memory — last-accessed becomes now, the access counter increments
by one, importance becomes min(1, importance * 1.05) — and this boost
strictly increases a positive importance below 1 and never takes importance
above 1. -/
theorem c2_recall_access_boost (now : Int) (m : Memory) :
    (recordAccess now m).lastAccessedAt = now ∧
    (recordAccess now m).accessCount = m.accessCount + 1 ∧
    (recordAccess now m).importance = min 1 (m.importance * (105 / 100)) ∧
    (0 < m.importance → m.importance < 1 →
      m.importance < (recordAccess now m).importance) ∧
    (recordAccess now m).importance ≤ 1 ∧
    (∀ (req : RecallRequest) (db : List Memory),
      (RecallRun now req db).2 =
        db.map (fun x =>
          if (Recall req db).any (fun r => r.id == x.id) then recordAccess now x else x)) :=
  ⟨rfl, rfl, rfl,
    fun h0 h1 => recordAccess_importance_gt now m h0 h1,
    recordAccess_importance_le_one now m,
    fun _ _ => rfl⟩

/-- C2, witness: the boost strictly increases importance one half. -/
theorem c2_witness : wMem.importance < (recordAccess 7 wMem).importance :=
  (c2_recall_access_boost 7 wMem).2.2.2.1 (by norm_num [wMem]) (by norm_num [wMem])

/-- C3: one decay run leaves memories at or below importance 0.1 unchanged,
leaves memories accessed within the last day unchanged, and multiplies
importance by exactly 0.99 for a memory above 0.1 whose last access is over
one day old (changing nothing else). -/
theorem c3_decay_task (now : Int) (m : Memory) (db : List Memory) :
    (m.importance ≤ 1 / 10 → decayStep now m = m) ∧
    (now - oneDay ≤ m.lastAccessedAt → decayStep now m = m) ∧
    ((1 / 10 : ℚ) < m.importance → m.lastAccessedAt < now - oneDay →
      decayStep now m = { m with importance := m.importance * (99 / 100) }) ∧
    DecayImportance now db = db.map (decayStep now) := by
  refine ⟨?_, ?_, ?_, rfl⟩
  · intro h
    unfold decayStep
    rw [if_neg]
    rintro ⟨h1, -⟩
    exact absurd h1 (not_lt.mpr h)
  · intro h
    unfold decayStep
    rw [if_neg]
    rintro ⟨-, h2⟩
    exact absurd h2 (not_lt.mpr h)
  · intro h1 h2
    unfold decayStep
    rw [if_pos ⟨h1, h2⟩]

/-- C3, witness: a stale memory with importance one half decays by the
factor 0.99. -/
theorem c3_witness :
    decayStep (2 * oneDay) wMem = { wMem with importance := wMem.importance * (99 / 100) } :=
  (c3_decay_task (2 * oneDay) wMem []).2.2.1 (by norm_num [wMem]) (by norm_num [wMem, oneDay])

/-- C4: every memory returned by recall comes from the store and satisfies
the full WHERE clause (scope, type, project and query filters); the result
is ordered by importance descending then last-accessed descending; and its
length is at most the effective limit, which is 5 whenever the requested
limit is not positive. -/
theorem c4_recall_spec (req : RecallRequest) (db : List Memory) :
    (∀ m ∈ Recall req db, passesFilters req m = true ∧ m ∈ db) ∧
    (Recall req db).Pairwise recallOrder ∧
    (Recall req db).length ≤ effLimit req.limit ∧
    (req.limit ≤ 0 → effLimit req.limit = 5) := by
  refine ⟨?_, ?_, ?_, ?_⟩
  · intro m hm
    have h1 : m ∈ (db.filter (passesFilters req)).insertionSort recallOrder :=
      List.mem_of_mem_take hm
    have h2 : m ∈ db.filter (passesFilters req) := (List.mem_insertionSort recallOrder).mp h1
    exact ⟨(List.mem_filter.mp h2).2, (List.mem_filter.mp h2).1⟩
  · exact List.Pairwise.sublist (List.take_sublist _ _)
      (List.sorted_insertionSort recallOrder _)
  · exact List.length_take_le _ _
  · intro h
    unfold effLimit
    rw [if_pos h]

/-- C4, witness: with no filters, the single stored memory is returned and
passes the WHERE clause. -/
theorem c4_witness : passesFilters wReq wMem = true ∧ wMem ∈ [wMem] :=
  (c4_recall_spec wReq [wMem]).1 wMem
    (by simp [Recall, effLimit, wReq, List.insertionSort])

/-- C5: when the extraction gateway fails, `processBatch` creates no
memories, marks every event of the batch processed, leaves rows outside the
batch unchanged, and returns normally (no error is propagated: the function
yields a plain state in every case). -/
theorem c5_extraction_failure (now : Int) (ids : Nat → String) (batch : List Event)
    (err : String) (st : AgentState) :
    (processBatch now ids batch (.error err) st).memories = st.memories ∧
    (processBatch now ids batch (.error err) st).events =
      st.events.map (rowMark now batch) ∧
    (∀ r ∈ st.events, (∃ e ∈ batch, e.id = r.event.id) →
      (rowMark now batch r).processedAt = some now) ∧
    (∀ r ∈ st.events, (∀ e ∈ batch, ¬e.id = r.event.id) → rowMark now batch r = r) := by
  refine ⟨?_, ?_, ?_, ?_⟩
  · cases batch with
    | nil =>
      show st.memories ++
          ((List.enum ([] : List ExtractedMemory)).map
            (fun p => memoryFromExtraction now (ids p.1) p.2)) = st.memories
      simp
    | cons e es => rfl
  · cases batch with
    | nil =>
      show markAllProcessed now [] st.events = st.events.map (rowMark now [])
      exact (map_rowMark_nil now st.events).symm
    | cons e es =>
      show markAllProcessed now (e :: es) st.events = st.events.map (rowMark now (e :: es))
      exact markAllProcessed_eq_map now (e :: es) st.events
  · intro r _ h
    exact rowMark_processed_of_mem now batch r h
  · intro r _ h
    exact rowMark_id_of_not_mem now batch r h

/-- C5, witness: with a one-event batch and a failing gateway, the single
event row is marked processed. -/
theorem c5_witness : (rowMark 3 [wEvent] wRow).processedAt = some 3 :=
  (c5_extraction_failure 3 (fun _ => "m") [wEvent] "boom" ⟨[wRow], []⟩).2.2.1 wRow
    (by simp) ⟨wEvent, by simp, rfl⟩

/-- C6: on a successful extraction over a non-empty batch, exactly the
candidates with confidence at least 0.6 become new memory records (in
order), a candidate belongs to the accepted list iff its confidence is at
least 0.6 (so every candidate below 0.6 is discarded), an empty candidate
list creates no memories, and the batch is still marked processed. -/
theorem c6_confidence_threshold (now : Int) (ids : Nat → String) (batch : List Event)
    (cands : List ExtractedMemory) (st : AgentState) (hne : batch ≠ []) :
    (processBatch now ids batch (.ok cands) st).memories =
      st.memories ++ ((filterByConfidence cands).enum.map
        (fun p => memoryFromExtraction now (ids p.1) p.2)) ∧
    (∀ c ∈ cands, c ∈ filterByConfidence cands ↔ (6 / 10 : ℚ) ≤ c.confidence) ∧
    (∀ c ∈ filterByConfidence cands, ¬c.confidence < 6 / 10) ∧
    (cands = [] → (processBatch now ids batch (.ok cands) st).memories = st.memories) ∧
    (processBatch now ids batch (.ok cands) st).events =
      st.events.map (rowMark now batch) := by
  obtain ⟨e, es, rfl⟩ : ∃ e es, batch = e :: es := by
    cases batch with
    | nil => exact absurd rfl hne
    | cons e es => exact ⟨e, es, rfl⟩
  refine ⟨rfl, ?_, ?_, ?_, ?_⟩
  · intro c hc
    unfold filterByConfidence
    simp [List.mem_filter, hc]
  · intro c hcf
    have h := (List.mem_filter.mp hcf).2
    exact not_lt.mpr (by simpa using h)
  · intro hcs
    subst hcs
    show st.memories ++
        ((filterByConfidence []).enum.map
          (fun p => memoryFromExtraction now (ids p.1) p.2)) = st.memories
    simp [filterByConfidence]
  · show markAllProcessed now (e :: es) st.events = st.events.map (rowMark now (e :: es))
    exact markAllProcessed_eq_map now (e :: es) st.events

/-- C6, witness: a candidate with confidence 0.8 is accepted. -/
theorem c6_witness :
    wCand ∈ filterByConfidence [wCand] ↔ (6 / 10 : ℚ) ≤ wCand.confidence :=
  (c6_confidence_threshold 0 (fun _ => "m") [wEvent] [wCand] ⟨[], []⟩
    (by simp)).2.1 wCand (by simp)

/-- C7: on the assistant-facing surface the remember operation creates no
memory record and returns no id — `handleRemember` leaves the store exactly
as received and answers with a text echo only (its body is a TODO) — while
the CLI surface does create a memory with confidence 1.0, scope personal
and source manual.  This evaluates the code at the failing input
remember("Use PKCE for mobile auth", type=decision). -/
theorem c7_mcp_remember_creates_no_memory :
    (∀ (mems : List Memory) (content mtype : String),
      (handleRemember mems content mtype).1 = mems) ∧
    (handleRemember [] "Use PKCE for mobile auth" "decision").1 = [] ∧
    (handleRemember [] "Use PKCE for mobile auth" "decision").2 =
      "Remembered: Use PKCE for mobile auth (type: decision)" ∧
    ((manualMemory 0 "id0" "Use PKCE for mobile auth" "decision" []).confidence = 1 ∧
      (manualMemory 0 "id0" "Use PKCE for mobile auth" "decision" []).scope = "personal" ∧
      (manualMemory 0 "id0" "Use PKCE for mobile auth" "decision" []).sourceType = "manual") :=
  ⟨fun _ _ _ => rfl, rfl, rfl, rfl, rfl, rfl⟩

/-- C8: submitting to the event queue at its fixed capacity of 10000 drops
the submitted (newest) event and leaves the queued events unchanged, while
a submit below capacity appends the event; no error is returned in either
case (the operation yields a plain queue). -/
theorem c8_queue_overflow (q : List Event) (e : Event) :
    (q.length = queueCapacity → submitEvent q e = q) ∧
    (q.length < queueCapacity → submitEvent q e = q ++ [e]) := by
  constructor
  · intro h
    unfold submitEvent
    rw [if_neg]
    omega
  · intro h
    unfold submitEvent
    rw [if_pos h]

/-- C8, witness: a full queue of 10000 events is unchanged by a submit. -/
theorem c8_witness :
    submitEvent (List.replicate queueCapacity wEvent) wEvent2 =
      List.replicate queueCapacity wEvent :=
  (c8_queue_overflow (List.replicate queueCapacity wEvent) wEvent2).1 (by simp)

/-- C9: delivering exactly batchSize events to an empty batcher with no
intervening time trigger produces exactly one flush, containing exactly
those events in submission order, and resets the wait timer exactly once at
that flush. -/
theorem c9_flush_on_size (batchSize : Nat) (events : List Event)
    (flushes : List (List Event)) (resets : Nat)
    (hpos : 0 < batchSize) (hlen : events.length = batchSize) :
    deliverEvents batchSize ⟨[], flushes, resets⟩ events =
      ⟨[], flushes ++ [events], resets + 1⟩ := by
  rcases List.eq_nil_or_concat events with rfl | ⟨init, last, rfl⟩
  · simp at hlen
    omega
  · simp only [List.concat_eq_append] at hlen ⊢
    have hinit : init.length + 1 = batchSize := by simpa using hlen
    have hd : deliverEvents batchSize ⟨[], flushes, resets⟩ (init ++ [last]) =
        onEvent batchSize (deliverEvents batchSize ⟨[], flushes, resets⟩ init) last := by
      unfold deliverEvents
      rw [List.foldl_append, List.foldl_cons, List.foldl_nil]
    rw [hd, deliverEvents_under _ _ _ (by simp; omega)]
    unfold onEvent
    rw [if_pos (by simp; omega)]
    simp

/-- C9, witness: with batch size 1, one event yields exactly one flush
containing it and one timer reset. -/
theorem c9_witness :
    deliverEvents 1 ⟨[], [], 0⟩ [wEvent] = ⟨[], [[wEvent]], 1⟩ :=
  c9_flush_on_size 1 [wEvent] [] 0 (by norm_num) (by simp)

/-- C10: a memory created with importance 1.0 keeps its importance strictly
above 0.099 = 0.1 * 0.99 (and at most 1) after any sequence of decay runs
and access boosts; and a single decay step can indeed land strictly below
the 0.1 floor, as the concrete memory with importance 0.101 shows. -/
theorem c10_importance_floor (m : Memory) (ops : List StoreOp)
    (hcreate : m.importance = 1) :
    ((99 / 1000 : ℚ) < (applyOps m ops).importance ∧ (applyOps m ops).importance ≤ 1) ∧
    ((decayStep (2 * oneDay) lowMem).importance < 1 / 10 ∧
      (99 / 1000 : ℚ) < (decayStep (2 * oneDay) lowMem).importance) := by
  constructor
  · exact applyOps_importance_floor ops m (by rw [hcreate]; norm_num) (le_of_eq hcreate)
  · norm_num [decayStep, lowMem, wMem, oneDay]

/-- C10, witness: a fresh memory keeps its importance in (0.099, 1] through
a decay run followed by a boost. -/
theorem c10_witness :
    (99 / 1000 : ℚ) <
      (applyOps wMemFull [StoreOp.decay (3 * oneDay), StoreOp.boost 0]).importance ∧
    (applyOps wMemFull [StoreOp.decay (3 * oneDay), StoreOp.boost 0]).importance ≤ 1 :=
  (c10_importance_floor wMemFull [StoreOp.decay (3 * oneDay), StoreOp.boost 0]
    (by norm_num [wMemFull, wMem])).1

end MemoryPilot
